import Mathlib

/-!
Verification development for `ModioDirect.py` (Therootexec/ModioDirect).

The Python program is a resolve / fetch / reconcile pipeline around the
mod.io REST API.  This file gives a shallow embedding of the pure decision
logic of the program: filesystem contents, network responses and parsed
JSON values appear as explicit inputs, and each Python function that the
claims mention is translated into a total Lean function over those inputs.
Machine-level failures that the model excludes (permission errors during
`os.makedirs` / `os.remove`, races between `getsize` and an external
writer) are noted at the definition they would affect.
-/

set_option maxHeartbeats 1000000

namespace ModioDirect

/-! ## JSON values and persisted-state loading (`load_cache`, `load_config`) -/

/-- A parsed JSON document, to the depth that `load_cache` / `load_config`
inspect it: a JSON object with string keys, or any non-object value
(`isinstance(data, dict)` is the only shape test those functions make). -/
inductive JVal where
  | dict (fields : List (String × JVal))
  | other

/-- The state of the cache/config file on disk, as distinguished by
`load_cache` / `load_config`: absent (`os.path.isfile` false), unreadable
(`open`/read raises), unparseable (`json.load` raises), or parsed to a
JSON value. -/
inductive FileState where
  | missing
  | unreadable
  | badJson
  | parsed (v : JVal)

/-- The best-effort default cache document, Python literal
`\x7b"mods": \x7b\x7d\x7d` (line 79 of `ModioDirect.py`). -/
def emptyCacheDefault : JVal := .dict [(("mods"), .dict [])]

/-- Embedding of `load_cache` (`ModioDirect.py` lines 70-79).  Every
exception path of the Python function is a constructor of `FileState`, so
totality of this Lean function is exactly the no-raise property. -/
def load_cache : FileState → JVal
  | .missing => emptyCacheDefault
  | .unreadable => emptyCacheDefault
  | .badJson => emptyCacheDefault
  | .parsed v =>
    match v with
    | .dict fields => .dict fields
    | .other => emptyCacheDefault

/-- Embedding of `load_config` (`ModioDirect.py` lines 175-185); identical
structure with the empty object as the default. -/
def load_config : FileState → JVal
  | .missing => .dict []
  | .unreadable => .dict []
  | .badJson => .dict []
  | .parsed v =>
    match v with
    | .dict fields => .dict fields
    | .other => .dict []

/-! ## File selector (`select_latest_file`) -/

/-- One element of the `files` list handed to `select_latest_file`:
either not a dict at all (skipped by the scan), or a dict whose
`date_added` value is an integer or missing/non-integer (`none`).
The `tag` stands for the rest of the file-version dict and lets distinct
entries be told apart. -/
inductive FileItem where
  | junk
  | entry (tag : Nat) (dateAdded : Option Int)
deriving DecidableEq

/-- The `date_added` value of an item, when it is a dict with an integer
value there. -/
def itemDate : FileItem → Option Int
  | .junk => none
  | .entry _ da => da

/-- The spec's notion of an entry with a valid timestamp: the scan's
accumulator starts at `-1`, which the spec calls "below any valid
timestamp", so a valid timestamp is a nonnegative integer. -/
def isValidVersion (f : FileItem) : Bool :=
  match f with
  | .entry _ (some t) => decide (0 ≤ t)
  | _ => false

/-- The linear scan inside `select_latest_file` (lines 618-627): `latest`
and `d` are the Python locals `latest` and `latest_date`; replacement
happens only on `date_added > latest_date`. -/
def selectScan : List FileItem → Option FileItem → Int → Option FileItem
  | [], latest, _ => latest
  | .junk :: rest, latest, d => selectScan rest latest d
  | .entry i da :: rest, latest, d =>
    match da with
    | none => selectScan rest latest d
    | some t => if d < t then selectScan rest (some (.entry i (some t))) t
                else selectScan rest latest d

/-- Embedding of `select_latest_file` (lines 615-627).  A non-list
argument also returns `None` in Python; the model's argument is already a
list, and the empty-list guard is line 616. -/
def select_latest_file (files : List FileItem) : Option FileItem :=
  if files.isEmpty then none else selectScan files none (-1)

/-- If the scan returns an item, that item carries an integer date that
bounds every integer date in the remaining input and is at least the
accumulator. -/
theorem selectScan_some_bound (files : List FileItem) :
    ∀ latest d f, (latest = none ∨ ∃ i, latest = some (.entry i (some d))) →
      selectScan files latest d = some f →
      ∃ u, itemDate f = some u ∧ d ≤ u ∧
        ∀ g ∈ files, ∀ t, itemDate g = some t → t ≤ u := by
  induction files with
  | nil =>
    intro latest d f hinv hscan
    rcases hinv with h | ⟨i, h⟩
    · simp [selectScan, h] at hscan
    · subst h
      simp only [selectScan] at hscan
      obtain rfl : FileItem.entry i (some d) = f := by
        injection hscan
      exact ⟨d, rfl, le_refl d, by simp⟩
  | cons g rest ih =>
    intro latest d f hinv hscan
    cases g with
    | junk =>
      obtain ⟨u, hu, hdu, hb⟩ := ih latest d f hinv (by simpa [selectScan] using hscan)
      exact ⟨u, hu, hdu, by
        intro g hg t ht
        rcases List.mem_cons.mp hg with hg | hg
        · subst hg; simp [itemDate] at ht
        · exact hb g hg t ht⟩
    | entry i da =>
      cases da with
      | none =>
        obtain ⟨u, hu, hdu, hb⟩ := ih latest d f hinv (by simpa [selectScan] using hscan)
        refine ⟨u, hu, hdu, ?_⟩
        intro g hg t ht
        rcases List.mem_cons.mp hg with hg | hg
        · subst hg; simp [itemDate] at ht
        · exact hb g hg t ht
      | some t =>
        by_cases hdt : d < t
        · have hscan2 : selectScan rest (some (.entry i (some t))) t = some f := by
            simpa [selectScan, hdt] using hscan
          obtain ⟨u, hu, htu, hb⟩ := ih (some (.entry i (some t))) t f (Or.inr ⟨i, rfl⟩) hscan2
          refine ⟨u, hu, le_of_lt (lt_of_lt_of_le hdt htu), ?_⟩
          intro g hg s hs
          rcases List.mem_cons.mp hg with hg | hg
          · subst hg
            simp only [itemDate] at hs
            injection hs with hs
            omega
          · exact hb g hg s hs
        · have hscan2 : selectScan rest latest d = some f := by
            simpa [selectScan, hdt] using hscan
          obtain ⟨u, hu, hdu, hb⟩ := ih latest d f hinv hscan2
          refine ⟨u, hu, hdu, ?_⟩
          intro g hg s hs
          rcases List.mem_cons.mp hg with hg | hg
          · subst hg
            simp only [itemDate] at hs
            injection hs with hs
            omega
          · exact hb g hg s hs

/-- If the scan returns nothing, it started with nothing and no integer
date in the input exceeds the accumulator. -/
theorem selectScan_none (files : List FileItem) :
    ∀ latest d, selectScan files latest d = none →
      latest = none ∧ ∀ g ∈ files, ∀ t, itemDate g = some t → t ≤ d := by
  induction files with
  | nil =>
    intro latest d hscan
    exact ⟨by simpa [selectScan] using hscan, by simp⟩
  | cons g rest ih =>
    intro latest d hscan
    cases g with
    | junk =>
      obtain ⟨hl, hb⟩ := ih latest d (by simpa [selectScan] using hscan)
      refine ⟨hl, ?_⟩
      intro g hg t ht
      rcases List.mem_cons.mp hg with hg | hg
      · subst hg; simp [itemDate] at ht
      · exact hb g hg t ht
    | entry i da =>
      cases da with
      | none =>
        obtain ⟨hl, hb⟩ := ih latest d (by simpa [selectScan] using hscan)
        refine ⟨hl, ?_⟩
        intro g hg t ht
        rcases List.mem_cons.mp hg with hg | hg
        · subst hg; simp [itemDate] at ht
        · exact hb g hg t ht
      | some t =>
        by_cases hdt : d < t
        · have hscan2 : selectScan rest (some (.entry i (some t))) t = none := by
            simpa [selectScan, hdt] using hscan
          obtain ⟨hl, _⟩ := ih _ _ hscan2
          exact absurd hl (by simp)
        · have hscan2 : selectScan rest latest d = none := by
            simpa [selectScan, hdt] using hscan
          obtain ⟨hl, hb⟩ := ih latest d hscan2
          refine ⟨hl, ?_⟩
          intro g hg s hs
          rcases List.mem_cons.mp hg with hg | hg
          · subst hg
            simp only [itemDate] at hs
            injection hs with hs
            omega
          · exact hb g hg s hs

/-- If no remaining integer date strictly exceeds the accumulator, the
current leader survives the rest of the scan. -/
theorem selectScan_keeps_leader (files : List FileItem) :
    ∀ l d, (∀ g ∈ files, ∀ t, itemDate g = some t → t ≤ d) →
      selectScan files (some l) d = some l := by
  induction files with
  | nil => intro l d _; rfl
  | cons g rest ih =>
    intro l d hb
    cases g with
    | junk =>
      simpa [selectScan] using ih l d (by
        intro g hg t ht
        exact hb g (List.mem_cons_of_mem _ hg) t ht)
    | entry i da =>
      cases da with
      | none =>
        simpa [selectScan] using ih l d (by
          intro g hg t ht
          exact hb g (List.mem_cons_of_mem _ hg) t ht)
      | some t =>
        have ht : t ≤ d := hb _ (List.mem_cons_self _ _) t rfl
        have hdt : ¬ d < t := by omega
        simpa [selectScan, hdt] using ih l d (by
          intro g hg s hs
          exact hb g (List.mem_cons_of_mem _ hg) s hs)

/-- With every integer date bounded by `d ≥ 0` and every valid entry
carrying exactly date `d`, the scan from the initial state returns the
first valid entry. -/
theorem selectScan_first_of_tie (files : List FileItem) (d : Int) :
    0 ≤ d →
    (∀ g ∈ files, ∀ t, itemDate g = some t → t ≤ d) →
    (∀ g ∈ files, isValidVersion g = true → itemDate g = some d) →
    selectScan files none (-1) = files.find? isValidVersion := by
  induction files with
  | nil => intro _ _ _; rfl
  | cons g rest ih =>
    intro hd hb hv
    cases g with
    | junk =>
      have : selectScan rest none (-1) = rest.find? isValidVersion :=
        ih hd (fun g hg => hb g (List.mem_cons_of_mem _ hg))
          (fun g hg => hv g (List.mem_cons_of_mem _ hg))
      simpa [selectScan, List.find?, isValidVersion] using this
    | entry i da =>
      cases da with
      | none =>
        have : selectScan rest none (-1) = rest.find? isValidVersion :=
          ih hd (fun g hg => hb g (List.mem_cons_of_mem _ hg))
            (fun g hg => hv g (List.mem_cons_of_mem _ hg))
        simpa [selectScan, List.find?, isValidVersion] using this
      | some t =>
        by_cases h0 : 0 ≤ t
        · have hvalid : isValidVersion (.entry i (some t)) = true := by
            simp [isValidVersion, h0]
          have hdate : itemDate (.entry i (some t)) = some d :=
            hv _ (List.mem_cons_self _ _) hvalid
          simp only [itemDate] at hdate
          injection hdate with hdate
          subst hdate
          have hneg : (-1 : Int) < t := by omega
          have : selectScan rest (some (.entry i (some t))) t = some (.entry i (some t)) :=
            selectScan_keeps_leader rest _ t
              (fun g hg => hb g (List.mem_cons_of_mem _ hg))
          simp [selectScan, hneg, List.find?, hvalid, this]
        · have hinvalid : isValidVersion (.entry i (some t)) = false := by
            simp [isValidVersion]; omega
          have hneg : ¬ (-1 : Int) < t := by omega
          have : selectScan rest none (-1) = rest.find? isValidVersion :=
            ih hd (fun g hg => hb g (List.mem_cons_of_mem _ hg))
              (fun g hg => hv g (List.mem_cons_of_mem _ hg))
          simpa [selectScan, hneg, List.find?, hinvalid] using this

/-- If nothing in the list is a valid version, the scan from the initial
state returns nothing. -/
theorem selectScan_none_of_no_valid (files : List FileItem) :
    (∀ g ∈ files, isValidVersion g = false) →
    selectScan files none (-1) = none := by
  induction files with
  | nil => intro _; rfl
  | cons g rest ih =>
    intro h
    cases g with
    | junk =>
      simpa [selectScan] using ih (fun g hg => h g (List.mem_cons_of_mem _ hg))
    | entry i da =>
      cases da with
      | none =>
        simpa [selectScan] using ih (fun g hg => h g (List.mem_cons_of_mem _ hg))
      | some t =>
        have := h _ (List.mem_cons_self _ _)
        simp only [isValidVersion, decide_eq_false_iff_not, not_le] at this
        have hneg : ¬ (-1 : Int) < t := by omega
        simpa [selectScan, hneg] using ih (fun g hg => h g (List.mem_cons_of_mem _ hg))

/-- C2: `select_latest_file` always returns an entry whose `date_added`
is maximal over every integer `date_added` in the list (so it never
returns a version dated below any other version); when every valid entry
(valid = nonnegative integer timestamp, the spec's "initialized below any
valid timestamp" sentinel being `-1`) shares one timestamp it returns the
first valid entry; and it returns `None` exactly when the list is empty
or has no valid entry. -/
theorem c2_select_latest_file_correct :
    (∀ files f, select_latest_file files = some f →
      ∀ g ∈ files, ∀ t, itemDate g = some t → ∃ u, itemDate f = some u ∧ t ≤ u) ∧
    (∀ files (d : Int), 0 ≤ d →
      (∀ g ∈ files, isValidVersion g = true → itemDate g = some d) →
      select_latest_file files = files.find? isValidVersion) ∧
    (∀ files, select_latest_file files = none ↔
      ∀ g ∈ files, isValidVersion g = false) := by
  refine ⟨?_, ?_, ?_⟩
  · intro files f hsel g hg t ht
    by_cases hemp : files.isEmpty
    · simp [select_latest_file, hemp] at hsel
    · have hscan : selectScan files none (-1) = some f := by
        simpa [select_latest_file, hemp] using hsel
      obtain ⟨u, hu, _, hb⟩ :=
        selectScan_some_bound files none (-1) f (Or.inl rfl) hscan
      exact ⟨u, hu, hb g hg t ht⟩
  · intro files d hd hv
    by_cases hemp : files.isEmpty
    · obtain rfl := List.isEmpty_iff.mp hemp
      simp [select_latest_file]
    · have hb : ∀ g ∈ files, ∀ t, itemDate g = some t → t ≤ d := by
        intro g hg t ht
        by_cases hval : isValidVersion g = true
        · have := hv g hg hval
          rw [ht] at this
          injection this with h2
          omega
        · cases g with
          | junk => simp [itemDate] at ht
          | entry i da =>
            simp only [itemDate] at ht
            subst ht
            simp only [isValidVersion, decide_eq_true_eq] at hval
            omega
      have := selectScan_first_of_tie files d hd hb hv
      simpa [select_latest_file, hemp] using this
  · intro files
    constructor
    · intro hnone g hg
      by_contra hval
      rw [Bool.not_eq_false] at hval
      by_cases hemp : files.isEmpty
      · obtain rfl := List.isEmpty_iff.mp hemp
        simp at hg
      · have hscan : selectScan files none (-1) = none := by
          simpa [select_latest_file, hemp] using hnone
        obtain ⟨_, hb⟩ := selectScan_none files none (-1) hscan
        cases g with
        | junk => simp [isValidVersion] at hval
        | entry i da =>
          cases da with
          | none => simp [isValidVersion] at hval
          | some t =>
            simp only [isValidVersion, decide_eq_true_eq] at hval
            have := hb _ hg t rfl
            omega
    · intro hno
      by_cases hemp : files.isEmpty
      · simp [select_latest_file, hemp]
      · simpa [select_latest_file, hemp] using
          selectScan_none_of_no_valid files hno

/-- Witness for C2: the theorem applied at a concrete list with a junk
element, two tied valid entries and a pre-epoch (invalid) entry. -/
theorem c2_select_latest_file_correct_witness :
    (∃ u, itemDate (.entry 1 (some 5)) = some u ∧ (5 : Int) ≤ u) ∧
    select_latest_file [.junk, .entry 9 (some (-3)), .entry 1 (some 5), .entry 2 (some 5)]
      = List.find? isValidVersion
          [.junk, .entry 9 (some (-3)), .entry 1 (some 5), .entry 2 (some 5)] ∧
    (select_latest_file [FileItem.junk, .entry 9 (some (-3))] = none ↔
      ∀ g ∈ [FileItem.junk, .entry 9 (some (-3))], isValidVersion g = false) := by
  refine ⟨?_, ?_, ?_⟩
  · exact c2_select_latest_file_correct.1
      [.junk, .entry 9 (some (-3)), .entry 1 (some 5), .entry 2 (some 5)]
      (.entry 1 (some 5)) (by decide) (.entry 2 (some 5)) (by simp) 5 rfl
  · exact c2_select_latest_file_correct.2.1
      [.junk, .entry 9 (some (-3)), .entry 1 (some 5), .entry 2 (some 5)] 5
      (by decide) (by decide)
  · exact c2_select_latest_file_correct.2.2 [FileItem.junk, .entry 9 (some (-3))]

/-- C8: loading the persisted cache or config never raises — every
exception path of the Python functions is a `FileState` constructor and
the embedding is total — and on a missing, unreadable or corrupt file
`load_cache` returns the empty-cache default and `load_config` the empty
config. -/
theorem c8_load_defaults_on_damage :
    load_cache .missing = emptyCacheDefault ∧
    load_cache .unreadable = emptyCacheDefault ∧
    load_cache .badJson = emptyCacheDefault ∧
    load_config .missing = .dict [] ∧
    load_config .unreadable = .dict [] ∧
    load_config .badJson = .dict [] :=
  ⟨rfl, rfl, rfl, rfl, rfl, rfl⟩

/-- C10: `load_cache` returns any parsed top-level JSON object unchanged,
with no check for a `mods` key or entry shapes; the default document is
produced exactly on the four degenerate inputs (or when the file happens
to contain the default itself). -/
theorem c10_load_cache_returns_dict_unvalidated :
    (∀ fields, load_cache (.parsed (.dict fields)) = .dict fields) ∧
    (∀ st, load_cache st = emptyCacheDefault ↔
      (st = .missing ∨ st = .unreadable ∨ st = .badJson ∨
       st = .parsed .other ∨ st = .parsed emptyCacheDefault)) := by
  refine ⟨fun _ => rfl, ?_⟩
  intro st
  cases st with
  | missing => simp [load_cache]
  | unreadable => simp [load_cache]
  | badJson => simp [load_cache]
  | parsed v =>
    cases v with
    | dict fields =>
      constructor
      · intro h
        exact Or.inr (Or.inr (Or.inr (Or.inr (congrArg FileState.parsed h))))
      · intro h
        rcases h with h | h | h | h | h
        · exact FileState.noConfusion h
        · exact FileState.noConfusion h
        · exact FileState.noConfusion h
        · injection h with h2
          exact JVal.noConfusion h2
        · have h2 : JVal.dict fields = emptyCacheDefault := by injection h
          exact h2
    | other => simp [load_cache, emptyCacheDefault]

/-! ## URL parsing (`parse_modio_url`)

`parse_modio_url` (lines 313-324) takes an arbitrary value: a non-string
input is modelled as `none`, a string as `some` of its character list.
`url.strip().split()[0]` splits on runs of Python whitespace after
stripping, so it is the first whitespace-delimited token — and raises
`IndexError` when the string is empty or whitespace-only, modelled as
`Except.error`.  `URL_REGEX.search` uses a `^`-anchored pattern without
`re.MULTILINE`, so it matches only at the start of the token. -/

/-- Python `str.split()` whitespace: space, tab, newline, carriage
return, vertical tab, form feed. -/
def pySpace (c : Char) : Bool :=
  c = ' ' || c = Char.ofNat 9 || c = Char.ofNat 10 || c = Char.ofNat 13 ||
    c = Char.ofNat 11 || c = Char.ofNat 12

/-- `url.strip().split()[0]` as a partial operation: `none` when the
string has no token (Python raises `IndexError` there). -/
def firstToken (s : List Char) : Option (List Char) :=
  match s.dropWhile pySpace with
  | [] => none
  | c :: rest => some ((c :: rest).takeWhile (fun ch => !pySpace ch))

/-- Python `str.strip()`. -/
def pyStrip (s : List Char) : List Char :=
  ((s.dropWhile pySpace).reverse.dropWhile pySpace).reverse

/-- Case-insensitive character comparison, for `re.IGNORECASE`. -/
def ciChar (a b : Char) : Bool := a.toLower = b.toLower

/-- Match a literal pattern case-insensitively at the head of the input,
returning the rest. -/
def matchLitCI : List Char → List Char → Option (List Char)
  | [], s => some s
  | _ :: _, [] => none
  | p :: ps, c :: cs => if ciChar p c then matchLitCI ps cs else none

/-- An optional single character (`s?`) with regex backtracking: try
consuming it, fall back to not consuming it. -/
def matchOptChar (c : Char) (k : List Char → Option (List Char × List Char))
    (s : List Char) : Option (List Char × List Char) :=
  match s with
  | x :: rest =>
    if ciChar c x then
      match k rest with
      | some v => some v
      | none => k s
    else k s
  | [] => k s

/-- An optional literal group (`(?:www\.)?`) with regex backtracking. -/
def matchOptLit (p : List Char) (k : List Char → Option (List Char × List Char))
    (s : List Char) : Option (List Char × List Char) :=
  match matchLitCI p s with
  | some s2 =>
    match k s2 with
    | some v => some v
    | none => k s
  | none => k s

/-- Characters allowed in the second capture group, `[^/?#]+`. -/
def group2Char (c : Char) : Bool := !(c = '/' || c = '?' || c = '#')

/-- The part of `URL_REGEX` after the host: `/m/([^/?#]+)`.  The first
capture group `g` is already fixed: `([^/]+)` is greedy and every
shortening of it puts a non-`/` character where the literal `/` of `/m/`
must match, so the maximal munch is the only candidate. -/
def urlAfterHost (g : List Char) (s : List Char) : Option (List Char × List Char) :=
  match matchLitCI (("/m/").toList) s with
  | none => none
  | some s2 =>
    let m := s2.takeWhile group2Char
    if m.isEmpty then none else some (g, m)

/-- The part of `URL_REGEX` after the scheme and optional `www.`:
`mod\.io/g/([^/]+)` followed by `urlAfterHost`. -/
def urlAfterScheme (s : List Char) : Option (List Char × List Char) :=
  match matchLitCI (("mod.io/g/").toList) s with
  | none => none
  | some s2 =>
    let g := s2.takeWhile (fun c => !(c = '/'))
    if g.isEmpty then none
    else urlAfterHost g (s2.dropWhile (fun c => !(c = '/')))

/-- `URL_REGEX.search` on a token: the pattern
`^https?://(?:www\.)?mod\.io/g/([^/]+)/m/([^/?#]+)` with `re.IGNORECASE`;
`^` without `re.MULTILINE` anchors the search at position 0. -/
def urlRegexSearch (s : List Char) : Option (List Char × List Char) :=
  match matchLitCI (("http").toList) s with
  | none => none
  | some s1 =>
    matchOptChar 's'
      (fun s2 =>
        match matchLitCI (("://").toList) s2 with
        | none => none
        | some s3 => matchOptLit (("www.").toList) urlAfterScheme s3) s1

/-- Embedding of `parse_modio_url` (lines 313-324).  `Except.error ()` is
the uncaught `IndexError` from `url.strip().split()[0]` on a string with
no token. -/
def parse_modio_url : Option (List Char) → Except Unit (Option (List Char) × Option (List Char))
  | none => .ok (none, none)
  | some s =>
    match firstToken s with
    | none => .error ()
    | some raw =>
      match urlRegexSearch raw with
      | none => .ok (none, none)
      | some (g, m) =>
        let g2 := pyStrip g
        let m2 := pyStrip m
        if g2.isEmpty || m2.isEmpty then .ok (none, none)
        else .ok (some g2, some m2)

/-- Every element of `takeWhile p l` satisfies `p`. -/
theorem takeWhile_sat (p : Char → Bool) :
    ∀ l : List Char, ∀ c ∈ l.takeWhile p, p c = true := by
  intro l
  induction l with
  | nil => intro c hc; simp [List.takeWhile] at hc
  | cons x xs ih =>
    intro c hc
    by_cases hx : p x = true
    · rw [List.takeWhile_cons_of_pos hx] at hc
      rcases List.mem_cons.mp hc with h | h
      · subst h; exact hx
      · exact ih c h
    · rw [List.takeWhile_cons_of_neg hx] at hc
      simp at hc

/-- `takeWhile` is the identity on a list all of whose elements satisfy
the predicate. -/
theorem takeWhile_of_all (p : Char → Bool) :
    ∀ l : List Char, (∀ c ∈ l, p c = true) → l.takeWhile p = l := by
  intro l
  induction l with
  | nil => intro _; rfl
  | cons x xs ih =>
    intro h
    rw [List.takeWhile_cons_of_pos (h x (List.mem_cons_self _ _))]
    rw [ih (fun c hc => h c (List.mem_cons_of_mem _ hc))]

/-- `dropWhile` is the identity on a list all of whose elements fail the
predicate. -/
theorem dropWhile_of_none (p : Char → Bool) :
    ∀ l : List Char, (∀ c ∈ l, p c = false) → l.dropWhile p = l := by
  intro l
  induction l with
  | nil => intro _; rfl
  | cons x xs ih =>
    intro h
    rw [List.dropWhile_cons_of_neg]
    simp [h x (List.mem_cons_self _ _)]

/-- A nonempty list without whitespace is its own first token. -/
theorem firstToken_self (l : List Char) (hne : l ≠ [])
    (hall : ∀ x ∈ l, pySpace x = false) : firstToken l = some l := by
  rcases l with _ | ⟨c, rest⟩
  · exact absurd rfl hne
  · have h1 : firstToken (c :: rest) =
        some ((c :: rest).takeWhile (fun ch => !pySpace ch)) := by
      unfold firstToken
      rw [dropWhile_of_none pySpace _ hall]
    rw [h1, takeWhile_of_all _ _ (by intro x hx; simp [hall x hx])]

/-- A first token is its own first token: it is nonempty and contains no
whitespace. -/
theorem firstToken_idem (s raw : List Char) :
    firstToken s = some raw → firstToken raw = some raw := by
  intro h
  unfold firstToken at h
  rcases hdrop : s.dropWhile pySpace with _ | ⟨c, rest⟩
  · rw [hdrop] at h; exact absurd h (by simp)
  · rw [hdrop] at h
    have hraw : raw = (c :: rest).takeWhile (fun ch => !pySpace ch) := by
      injection h with h2
      exact h2.symm
    have hc : pySpace c = false := by
      have := List.head?_dropWhile_not pySpace s
      rw [hdrop] at this
      simpa using this
    have hsat : ∀ x ∈ raw, pySpace x = false := by
      intro x hx
      rw [hraw] at hx
      have := takeWhile_sat (fun ch => !pySpace ch) (c :: rest) x hx
      simpa using this
    have hne2 : raw ≠ [] := by
      rw [hraw, List.takeWhile_cons_of_pos (by simp [hc])]
      simp
    exact firstToken_self raw hne2 hsat

/-- C9: `parse_modio_url` maps a non-string to `(None, None)`, raises an
`IndexError` exactly when the string has no whitespace-delimited token,
returns `(None, None)` when the first token does not match `URL_REGEX`,
and only the first token is ever considered. -/
theorem c9_parse_modio_url_partiality :
    (parse_modio_url none = .ok (none, none)) ∧
    (∀ s, firstToken s = none → parse_modio_url (some s) = .error ()) ∧
    (∀ s raw, firstToken s = some raw → urlRegexSearch raw = none →
      parse_modio_url (some s) = .ok (none, none)) ∧
    (∀ s raw, firstToken s = some raw →
      parse_modio_url (some s) = parse_modio_url (some raw)) := by
  refine ⟨rfl, ?_, ?_, ?_⟩
  · intro s h
    simp [parse_modio_url, h]
  · intro s raw h hregex
    simp [parse_modio_url, h, hregex]
  · intro s raw h
    have h2 := firstToken_idem s raw h
    simp only [parse_modio_url, h, h2]

/-- Witness for C9: a whitespace-only string raises, a non-matching
token yields `(None, None)`, and trailing text after the first token is
ignored. -/
theorem c9_parse_modio_url_partiality_witness :
    parse_modio_url (some (("  ").toList)) = .error () ∧
    parse_modio_url (some (("nope").toList)) = .ok (none, none) ∧
    parse_modio_url (some (("https://mod.io/g/ab/m/cd junktail").toList))
      = parse_modio_url (some (("https://mod.io/g/ab/m/cd").toList)) := by
  refine ⟨?_, ?_, ?_⟩
  · exact c9_parse_modio_url_partiality.2.1 (("  ").toList) rfl
  · exact c9_parse_modio_url_partiality.2.2.1 (("nope").toList) (("nope").toList) rfl rfl
  · exact c9_parse_modio_url_partiality.2.2.2
      (("https://mod.io/g/ab/m/cd junktail").toList)
      (("https://mod.io/g/ab/m/cd").toList) rfl

/-! ## Identity resolver (`resolve_game_id`, `resolve_mod_id`)

Each resolver step makes one HTTP request through `safe_request`; the
response is modelled by `ApiResp`.  The JSON body is inspected only as:
is it a dict; does its `data` key hold a list; and the per-item fields
`id` / `name_id` / `slug` / `game_id`.  Error messages are distinct
string literals in the source; they are modelled by the constructors of
`Msg`, one per message site (the `Game not found for provided
game_slug.` literal is shared by lines 348, 388 and 394 and so by one
constructor). -/

/-- The fields of one element of a `data` list that the resolvers read.
`none` stands for a missing key or a value of the wrong type. -/
structure ApiItem where
  id : Option Int := none
  name_id : Option String := none
  slug : Option String := none
  game_id : Option Int := none
deriving DecidableEq

/-- One backend interaction: `safe_request` returned `None` (transport
failure / requests missing), or a response with a status code and a body.
The body is `none` when `safe_json` fails or yields a non-dict, `some
none` when the `data` key is missing or not a list, and `some (some
items)` otherwise; a list element is `none` when it is not a dict. -/
inductive ApiResp where
  | netError
  | resp (status : Nat) (body : Option (Option (List (Option ApiItem))))

/-- The distinct user-facing error strings of the resolver functions,
one constructor per string literal. -/
inductive Msg where
  | netResolveGame
  | rateLimitResolveGame
  | apiErrResolveGame (code : Nat)
  | unauthorizedKey
  | badRespResolveGame
  | badGameFormat
  | missingGameId
  | gameNotFound
  | netSearchGame
  | rateLimitSearchGame
  | apiErrSearchGame (code : Nat)
  | badRespSearchGame
  | netResolveMod
  | rateLimitResolveMod
  | apiErrResolveMod (code : Nat)
  | badRespResolveMod
  | badModFormat
  | missingModId
  | modNotFound
  | mod404Fallback
deriving DecidableEq

/-- Python `str.lower()` on a string, written over the character list so
that it evaluates by kernel reduction. -/
def strLower (s : String) : String := String.mk (s.data.map Char.toLower)

/-- Embedding of `match_slug` (lines 358-367): case-insensitive equality
of the input slug against `name_id` or `slug`; a non-dict item never
matches. -/
def match_slug (item : Option ApiItem) (slug : String) : Bool :=
  match item with
  | none => false
  | some it =>
    (match it.name_id with
     | some nid => strLower nid = strLower slug
     | none => false) ||
    (match it.slug with
     | some sl => strLower sl = strLower slug
     | none => false)

/-- The scan of lines 389-393: the first item that `match_slug`-matches
and carries an integer `id` wins; a matching item without an integer id
does not stop the scan. -/
def findMatchId (items : List (Option ApiItem)) (slug : String) : Option Int :=
  match items with
  | [] => none
  | it :: rest =>
    if match_slug it slug then
      match it with
      | some i =>
        match i.id with
        | some gid => some gid
        | none => findMatchId rest slug
      | none => findMatchId rest slug
    else findMatchId rest slug

/-- Embedding of `fallback_search_game_id` (lines 370-394), the
full-text search strategy, over the response `r` to its one request. -/
def fallback_search_game_id (slug : String) (r : ApiResp) : Option Int × Option Msg :=
  match r with
  | .netError => (none, some .netSearchGame)
  | .resp st body =>
    if st = 401 then (none, some .unauthorizedKey)
    else if st = 429 then (none, some .rateLimitSearchGame)
    else if 400 ≤ st then (none, some (.apiErrSearchGame st))
    else
      match body with
      | none => (none, some .badRespSearchGame)
      | some dataField =>
        match dataField with
        | none => (none, some .gameNotFound)
        | some items =>
          if items.isEmpty then (none, some .gameNotFound)
          else
            match findMatchId items slug with
            | some gid => (some gid, none)
            | none => (none, some .gameNotFound)

/-- The zero-match arm of `resolve_game_id` (lines 344-348): run the
fallback search and combine, `err or default`. -/
def gameFallbackCombine (slug : String) (fb : ApiResp) : Option Int × Option Msg :=
  match fallback_search_game_id slug fb with
  | (some gid, _) => (some gid, none)
  | (none, e) => (none, some (e.getD .gameNotFound))

/-- Embedding of `resolve_game_id` (lines 327-355): `primary` is the
response to the exact-filter query, `fb` the response to the full-text
search the fallback would issue. -/
def resolve_game_id (slug : String) (primary fb : ApiResp) : Option Int × Option Msg :=
  match primary with
  | .netError => (none, some .netResolveGame)
  | .resp st body =>
    if st = 401 then (none, some .unauthorizedKey)
    else if st = 429 then (none, some .rateLimitResolveGame)
    else if 400 ≤ st then (none, some (.apiErrResolveGame st))
    else
      match body with
      | none => (none, some .badRespResolveGame)
      | some dataField =>
        match dataField with
        | none => gameFallbackCombine slug fb
        | some [] => gameFallbackCombine slug fb
        | some (it :: _) =>
          match it with
          | none => (none, some .badGameFormat)
          | some g =>
            match g.id with
            | some gid => (some gid, none)
            | none => (none, some .missingGameId)

/-- The zero-match arm of `resolve_mod_id` (lines 419-423): combine the
result of `fallback_search_mod_id`. -/
def modSearchCombine (r : Option Int × Option Msg) : Option Int × Option Msg :=
  match r with
  | (some mid, _) => (some mid, none)
  | (none, e) => (none, some (e.getD .modNotFound))

/-- The 404 arm of `resolve_mod_id` (lines 408-412): combine the result
of `resolve_mod_id_global`. -/
def mod404Combine (r : Option Int × Option Msg) : Option Int × Option Msg :=
  match r with
  | (some mid, _) => (some mid, none)
  | (none, e) => (none, some (e.getD .mod404Fallback))

/-- Embedding of `resolve_mod_id` (lines 397-430).  Its two fallback
callees (`resolve_mod_id_global` on 404, `fallback_search_mod_id` on
zero matches) are passed as their result pairs `globalRes` / `searchRes`,
which suffices to settle how this dispatcher routes between them. -/
def resolve_mod_id (primary : ApiResp)
    (globalRes searchRes : Option Int × Option Msg) : Option Int × Option Msg :=
  match primary with
  | .netError => (none, some .netResolveMod)
  | .resp st body =>
    if st = 401 then (none, some .unauthorizedKey)
    else if st = 429 then (none, some .rateLimitResolveMod)
    else if st = 404 then mod404Combine globalRes
    else if 400 ≤ st then (none, some (.apiErrResolveMod st))
    else
      match body with
      | none => (none, some .badRespResolveMod)
      | some dataField =>
        match dataField with
        | none => modSearchCombine searchRes
        | some [] => modSearchCombine searchRes
        | some (it :: _) =>
          match it with
          | none => (none, some .badModFormat)
          | some m =>
            match m.id with
            | some mid => (some mid, none)
            | none => (none, some .missingModId)

/-- A full-text-search response holding one game that matches slug `x`
with id 7, used to show the fallback is not consulted. -/
def c4fbResp : ApiResp :=
  .resp 200 (some (some [some { id := some 7, name_id := some (("x")) }]))

/-- Counterexample to C4: on a 5xx response to the exact-filter query,
`resolve_game_id` returns the API error immediately even though the
full-text fallback would have resolved the id; so a 5xx at the first
strategy does not fall through. -/
theorem c4_counterexample :
    resolve_game_id (("x")) (.resp 500 (some (some []))) c4fbResp
      = (none, some (.apiErrResolveGame 500)) ∧
    fallback_search_game_id (("x")) c4fbResp = (some 7, none) := by
  constructor
  · rfl
  · decide

/-- C4 as amended: the first strategy of each resolver falls through
only on zero matches (and, for mod resolution, on an explicit 404, to
the global strategy); a transport failure or any response with status
≥ 400 — including every 5xx — is returned immediately, with the
fallback never consulted. -/
theorem c4_fallthrough_amended :
    (∀ slug fb st, st < 400 →
      resolve_game_id slug (.resp st (some none)) fb = gameFallbackCombine slug fb ∧
      resolve_game_id slug (.resp st (some (some []))) fb = gameFallbackCombine slug fb) ∧
    (∀ slug fb fb' st body, 400 ≤ st →
      resolve_game_id slug (.resp st body) fb = resolve_game_id slug (.resp st body) fb' ∧
      (resolve_game_id slug (.resp st body) fb).1 = none) ∧
    (∀ slug fb, resolve_game_id slug .netError fb = (none, some .netResolveGame)) ∧
    (∀ g s body, resolve_mod_id (.resp 404 body) g s = mod404Combine g) ∧
    (∀ g s st, st < 400 →
      resolve_mod_id (.resp st (some none)) g s = modSearchCombine s ∧
      resolve_mod_id (.resp st (some (some []))) g s = modSearchCombine s) ∧
    (∀ g g' s s' st body, 400 ≤ st → st ≠ 404 →
      resolve_mod_id (.resp st body) g s = resolve_mod_id (.resp st body) g' s' ∧
      (resolve_mod_id (.resp st body) g s).1 = none) ∧
    (∀ g s, resolve_mod_id .netError g s = (none, some .netResolveMod)) := by
  refine ⟨?_, ?_, fun _ _ => rfl, ?_, ?_, ?_, fun _ _ => rfl⟩
  · intro slug fb st hst
    have h1 : st ≠ 401 := by omega
    have h2 : st ≠ 429 := by omega
    have h3 : ¬ 400 ≤ st := by omega
    constructor <;> simp [resolve_game_id, h1, h2, h3]
  · intro slug fb fb' st body hst
    by_cases h1 : st = 401
    · subst h1; constructor <;> simp [resolve_game_id]
    · by_cases h2 : st = 429
      · subst h2; constructor <;> simp [resolve_game_id]
      · constructor <;> simp [resolve_game_id, h1, h2, hst]
  · intro g s body
    simp [resolve_mod_id]
  · intro g s st hst
    have h1 : st ≠ 401 := by omega
    have h2 : st ≠ 429 := by omega
    have h3 : st ≠ 404 := by omega
    have h4 : ¬ 400 ≤ st := by omega
    constructor <;> simp [resolve_mod_id, h1, h2, h3, h4]
  · intro g g' s s' st body hst h404
    by_cases h1 : st = 401
    · subst h1; constructor <;> simp [resolve_mod_id]
    · by_cases h2 : st = 429
      · subst h2; constructor <;> simp [resolve_mod_id]
      · constructor <;> simp [resolve_mod_id, h1, h2, h404, hst]

/-- Witness for C4's amended theorem at concrete inputs: a zero-match
primary response falls through to the fallback combination, and a 500
primary response is independent of the fallback and carries no id. -/
theorem c4_fallthrough_amended_witness :
    resolve_game_id (("x")) (.resp 200 (some (some []))) c4fbResp
      = gameFallbackCombine (("x")) c4fbResp ∧
    resolve_game_id (("x")) (.resp 500 (some (some []))) c4fbResp
      = resolve_game_id (("x")) (.resp 500 (some (some []))) .netError ∧
    resolve_mod_id (.resp 503 none) (some 3, none) (some 4, none)
      = resolve_mod_id (.resp 503 none) (none, none) (none, none) := by
  refine ⟨?_, ?_, ?_⟩
  · exact (c4_fallthrough_amended.1 (("x")) c4fbResp 200 (by omega)).2
  · exact (c4_fallthrough_amended.2.1 (("x")) c4fbResp .netError 500
      (some (some [])) (by omega)).1
  · exact (c4_fallthrough_amended.2.2.2.2.2.1 (some 3, none) (none, none)
      (some 4, none) (none, none) 503 none (by omega) (by omega)).1

/-! ## Fetch engine (`download_file`)

`download_file` (lines 652-747) is a `for attempt in range(1, 3)` loop:
at most two attempts.  The model tracks the destination path as
`Option Nat` — `none` when no file is there, `some n` for a file of `n`
bytes — and feeds the response to attempt `i` as `resps i`.  Modelled
faithfully: the existing-file reuse short-circuit (line 661, taken
before any request, with no size check), stale-file removal (665-669),
the streamed write (702-722, which on a mid-stream exception leaves the
partially written file on disk), the size check and deletion (725-737),
and the `attempt == 2`-is-terminal returns.  Outside the model: the
path-preparation `except` at 670-672 and the `except: pass` around
`os.path.getsize`/`os.remove`, which fire only on OS-level errors the
filesystem model excludes. -/

/-- The body phase of one attempt: the stream writes `n` bytes and
completes, or raises after writing `n` bytes (the file stays). -/
inductive DlBody where
  | bytes (n : Nat)
  | raiseAfter (n : Nat)
deriving DecidableEq

/-- The response `safe_request` produces for one attempt: `None`
(transport failure), or a status code with a body outcome. -/
inductive DlResp where
  | netError
  | http (status : Nat) (body : DlBody)
deriving DecidableEq

/-- What one loop iteration does: finish with `(ok, reused)` and a
destination state, or fall through to the next attempt. -/
inductive AttemptRes where
  | done (ok reused : Bool) (fs : Option Nat)
  | retry (fs : Option Nat)
deriving DecidableEq

/-- One iteration of the `download_file` loop.  `isLast` is
`attempt == 2`: every failure site returns instead of continuing. -/
def runAttempt (allowExisting : Bool) (expected : Option Nat) (resp : DlResp)
    (fs : Option Nat) (isLast : Bool) : AttemptRes :=
  if allowExisting && fs.isSome then .done true true fs
  else
    match resp with
    | .netError => if isLast then .done false false none else .retry none
    | .http st body =>
      if st = 429 then (if isLast then .done false false none else .retry none)
      else if 400 ≤ st then (if isLast then .done false false none else .retry none)
      else
        match body with
        | .raiseAfter n => if isLast then .done false false (some n) else .retry (some n)
        | .bytes n =>
          match expected with
          | none => .done true false (some n)
          | some e =>
            if n = e then .done true false (some n)
            else if isLast then .done false false none else .retry none

/-- The observable outcome of `download_file`: the returned
`(ok, skipped, path)` triple — `pathReturned` is whether the returned
path is the target rather than `""` — together with the final state of
the destination path. -/
structure DlResult where
  ok : Bool
  reused : Bool
  pathReturned : Bool
  fs : Option Nat
deriving DecidableEq

/-- Embedding of `download_file` (lines 652-747): attempt 1, then on
fall-through attempt 2 with every failure terminal.  The final
`.retry` arm is Python line 747, unreachable because `isLast` attempts
never fall through. -/
def download_file (allowExisting : Bool) (expected : Option Nat)
    (resps : Nat → DlResp) (fs0 : Option Nat) : DlResult :=
  match runAttempt allowExisting expected (resps 0) fs0 false with
  | .done ok r fs => ⟨ok, r, ok, fs⟩
  | .retry fs1 =>
    match runAttempt allowExisting expected (resps 1) fs1 true with
    | .done ok r fs => ⟨ok, r, ok, fs⟩
    | .retry fs => ⟨false, false, false, fs⟩

/-- The failure classes the claim lists as retryable: transport failure,
rate limit or any error status (≥ 400 covers both), a mid-stream
transport failure, or a completed write whose size mismatches
`expected`. -/
def retryableFailure (expected : Option Nat) (resp : DlResp) : Prop :=
  resp = .netError ∨
  (∃ st body, resp = .http st body ∧ 400 ≤ st) ∨
  (∃ st n, resp = .http st (.raiseAfter n) ∧ st < 400) ∨
  (∃ st n e, resp = .http st (.bytes n) ∧ st < 400 ∧ expected = some e ∧ n ≠ e)

/-- Counterexample to C1: with `allow_existing` true and a stale file of
5 bytes at the destination, a fetch with `expectedSize = 10` is reported
successful yet leaves the 5-byte file there — the reuse short-circuit at
line 661 performs no size verification, contradicting the claim that
every successful fetch leaves a file of `expectedSize`. -/
theorem c1_counterexample :
    (download_file true (some 10) (fun _ => .netError) (some 5)).ok = true ∧
    (download_file true (some 10) (fun _ => .netError) (some 5)).fs = some 5 ∧
    some (5 : Nat) ≠ some 10 := by
  refine ⟨rfl, rfl, by decide⟩

/-- C1 as amended: the retry discipline is exactly as claimed — the
result depends on at most two responses; a retryable first failure falls
through (one retry) and the second attempt decides the outcome; a last
attempt never falls through and any retryable failure there is terminal.
The size guarantee holds for every successful fetch that did not take
the existing-file reuse short-circuit (`reused = false`); and when both
attempts complete writes of mismatched size, the file is deleted and
nothing is left at the destination. -/
theorem c1_download_file_retry_and_size :
    (∀ aE exp (resps resps2 : Nat → DlResp) fs0,
      resps 0 = resps2 0 → resps 1 = resps2 1 →
      download_file aE exp resps fs0 = download_file aE exp resps2 fs0) ∧
    (∀ aE exp resp fs, ∃ ok r fs2, runAttempt aE exp resp fs true = .done ok r fs2) ∧
    (∀ aE exp resp fs, (aE && fs.isSome) = false → retryableFailure exp resp →
      ∃ fs2, runAttempt aE exp resp fs true = .done false false fs2) ∧
    (∀ aE exp (resps : Nat → DlResp) fs0, (aE && fs0.isSome) = false →
      retryableFailure exp (resps 0) →
      ∃ fs1, runAttempt aE exp (resps 0) fs0 false = .retry fs1 ∧
        (∀ ok r fs2, runAttempt aE exp (resps 1) fs1 true = .done ok r fs2 →
          download_file aE exp resps fs0 = ⟨ok, r, ok, fs2⟩)) ∧
    (∀ aE exp (resps : Nat → DlResp) fs0 n, exp = some n →
      (download_file aE exp resps fs0).ok = true →
      (download_file aE exp resps fs0).reused = false →
      (download_file aE exp resps fs0).fs = some n) ∧
    (∀ aE (resps : Nat → DlResp) fs0 x st1 st2 n1 n2,
      (aE && fs0.isSome) = false →
      resps 0 = .http st1 (.bytes n1) → st1 < 400 → n1 ≠ x →
      resps 1 = .http st2 (.bytes n2) → st2 < 400 → n2 ≠ x →
      download_file aE (some x) resps fs0 = ⟨false, false, false, none⟩) := by
  refine ⟨?_, ?_, ?_, ?_, ?_, ?_⟩
  · intro aE exp resps resps2 fs0 h0 h1
    unfold download_file
    rw [h0, h1]
  · intro aE exp resp fs
    unfold runAttempt
    by_cases hreuse : (aE && fs.isSome) = true
    · exact ⟨true, true, fs, by simp [hreuse]⟩
    · rw [Bool.not_eq_true] at hreuse
      cases resp with
      | netError => exact ⟨false, false, none, by simp [hreuse]⟩
      | http st body =>
        by_cases h429 : st = 429
        · exact ⟨false, false, none, by simp [hreuse, h429]⟩
        · by_cases herr : 400 ≤ st
          · exact ⟨false, false, none, by simp [hreuse, h429, herr]⟩
          · cases body with
            | raiseAfter n => exact ⟨false, false, some n, by simp [hreuse, h429, herr]⟩
            | bytes n =>
              cases exp with
              | none => exact ⟨true, false, some n, by simp [hreuse, h429, herr]⟩
              | some e =>
                by_cases hne : n = e
                · exact ⟨true, false, some n, by simp [hreuse, h429, herr, hne]⟩
                · exact ⟨false, false, none, by simp [hreuse, h429, herr, hne]⟩
  · intro aE exp resp fs hreuse hretry
    unfold runAttempt
    rcases hretry with h | ⟨st, body, h, hst⟩ | ⟨st, n, h, hst⟩ | ⟨st, n, e, h, hst, hexp, hne⟩
    · subst h; exact ⟨none, by simp [hreuse]⟩
    · subst h
      by_cases h429 : st = 429
      · exact ⟨none, by simp [hreuse, h429]⟩
      · exact ⟨none, by simp [hreuse, h429, hst]⟩
    · subst h
      have h429 : st ≠ 429 := by omega
      have herr : ¬ 400 ≤ st := by omega
      exact ⟨some n, by simp [hreuse, h429, herr]⟩
    · subst h; subst hexp
      have h429 : st ≠ 429 := by omega
      have herr : ¬ 400 ≤ st := by omega
      exact ⟨none, by simp [hreuse, h429, herr, hne]⟩
  · intro aE exp resps fs0 hreuse hretry
    have hfall : ∃ fs1, runAttempt aE exp (resps 0) fs0 false = .retry fs1 := by
      unfold runAttempt
      rcases hretry with h | ⟨st, body, h, hst⟩ | ⟨st, n, h, hst⟩ | ⟨st, n, e, h, hst, hexp, hne⟩
      · rw [h]; exact ⟨none, by simp [hreuse]⟩
      · rw [h]
        by_cases h429 : st = 429
        · exact ⟨none, by simp [hreuse, h429]⟩
        · exact ⟨none, by simp [hreuse, h429, hst]⟩
      · rw [h]
        have h429 : st ≠ 429 := by omega
        have herr : ¬ 400 ≤ st := by omega
        exact ⟨some n, by simp [hreuse, h429, herr]⟩
      · rw [h, hexp]
        have h429 : st ≠ 429 := by omega
        have herr : ¬ 400 ≤ st := by omega
        exact ⟨none, by simp [hreuse, h429, herr, hne]⟩
    obtain ⟨fs1, hfs1⟩ := hfall
    refine ⟨fs1, hfs1, ?_⟩
    intro ok r fs2 hdone
    unfold download_file
    rw [hfs1]
    simp [hdone]
  · intro aE exp resps fs0 n hexp hok hreused
    subst hexp
    have hinv : ∀ resp fs L fs2,
        runAttempt aE (some n) resp fs L = .done true false fs2 → fs2 = some n := by
      intro resp fs L fs2 h
      unfold runAttempt at h
      by_cases hreuse : (aE && fs.isSome) = true
      · simp [hreuse] at h
      · rw [Bool.not_eq_true] at hreuse
        cases resp with
        | netError =>
          cases L <;> simp [hreuse] at h
        | http st body =>
          by_cases h429 : st = 429
          · cases L <;> simp [hreuse, h429] at h
          · by_cases herr : 400 ≤ st
            · cases L <;> simp [hreuse, h429, herr] at h
            · cases body with
              | raiseAfter m => cases L <;> simp [hreuse, h429, herr] at h
              | bytes m =>
                by_cases hme : m = n
                · subst hme
                  simp [hreuse, h429, herr] at h
                  subst h
                  rfl
                · cases L <;> simp [hreuse, h429, herr, hme] at h
    unfold download_file at hok hreused ⊢
    rcases h1 : runAttempt aE (some n) (resps 0) fs0 false with ⟨ok1, r1, fsa⟩ | fs1
    · rw [h1] at hok hreused
      simp at hok hreused
      subst hok; subst hreused
      simpa using hinv (resps 0) fs0 false fsa h1
    · rw [h1] at hok hreused
      simp at hok hreused
      rcases h2 : runAttempt aE (some n) (resps 1) fs1 true with ⟨ok2, r2, fsb⟩ | fsb
      · rw [h2] at hok hreused
        simp at hok hreused
        subst hok; subst hreused
        simpa [h2] using hinv (resps 1) fs1 true fsb h2
      · rw [h2] at hok
        simp at hok
  · intro aE resps fs0 x st1 st2 n1 n2 hreuse h0 hst1 hn1 h1 hst2 hn2
    have h429a : st1 ≠ 429 := by omega
    have herra : ¬ 400 ≤ st1 := by omega
    have h429b : st2 ≠ 429 := by omega
    have herrb : ¬ 400 ≤ st2 := by omega
    unfold download_file
    rw [h0, h1]
    unfold runAttempt
    simp [hreuse, h429a, herra, hn1, h429b, herrb, hn2]

/-- Witness for C1's amended theorem: concrete two-attempt runs — a
rate-limited first attempt retried into a correctly sized write, and a
double size-mismatch ending with no file at the destination. -/
theorem c1_download_file_retry_and_size_witness :
    (download_file false (some 4)
        (fun i => if i = 0 then .http 429 (.bytes 0) else .http 200 (.bytes 4)) none).fs
      = some 4 ∧
    download_file false (some 4)
        (fun i => if i = 0 then .http 200 (.bytes 3) else .http 200 (.bytes 9)) none
      = ⟨false, false, false, none⟩ := by
  constructor
  · exact c1_download_file_retry_and_size.2.2.2.2.1 false (some 4)
      (fun i => if i = 0 then .http 429 (.bytes 0) else .http 200 (.bytes 4)) none 4
      rfl rfl rfl
  · exact c1_download_file_retry_and_size.2.2.2.2.2 false
      (fun i => if i = 0 then .http 200 (.bytes 3) else .http 200 (.bytes 9)) none
      4 200 200 3 9 rfl rfl (by omega) (by decide) rfl (by omega) (by decide)

/-! ## Download-skip decision of `process_single_mod` (lines 1051-1104)

The slice of `process_single_mod` between the cache lookup and the
`download_mod` call is a pure decision over: the cache entry for the mod
(`None` for a missing entry or the falsy empty dict), the resolved
latest version id, the `--install` and `--force` flags, the file at
`DOWNLOAD_DIR/filename` (`existing`, `none` when absent, `some size`
otherwise) and the declared size.  Python `==` on the optional ids is
`Option` equality (`None == None` is true).  A network request is then
made exactly when the decision reaches `download_mod` with a target at
which a file does not already exist: the install path downloads to a
fresh temporary directory (`allow_existing=False`, no file there), the
non-install path is `allow_existing=True` at the very `existing` path,
where `download_file` line 661 reuses any present file without a
request. -/

/-- The cache-entry fields that the decision slice reads.
`installedPathIsDir` folds `isinstance(installed_path, str) and
os.path.isdir(installed_path)` (line 1062). -/
structure ProcEntry where
  latestVersionId : Option Int
  installedVersionId : Option Int
  installedPathIsDir : Bool
deriving DecidableEq

/-- Line 1058: `entry and entry.get("latest_version_id") ==
latest_version_id and not force_requested`. -/
def entryMatchesB (entry : Option ProcEntry) (latestId : Option Int) (force : Bool) : Bool :=
  match entry with
  | some e => (e.latestVersionId == latestId) && !force
  | none => false

/-- Lines 1060-1062: the recorded install is current and its path still
exists as a directory. -/
def installSkipCondB (entry : Option ProcEntry) (latestId : Option Int) : Bool :=
  match entry with
  | some e => (e.installedVersionId == latestId) && e.installedPathIsDir
  | none => false

/-- `os.path.isfile(existing_path)` together with
`expected_size is None or os.path.getsize(existing_path) ==
expected_size` (lines 1066-1067, 1073-1074, 1080). -/
def existingOkB (existing expected : Option Nat) : Bool :=
  match existing with
  | some s =>
    match expected with
    | none => true
    | some e2 => s == e2
  | none => false

/-- Where the decision slice ends up. -/
inductive ProcOutcome where
  | installSkip
  | useExisting
  | fetchTemp
  | fetchDirect
deriving DecidableEq

/-- Lines 1072-1104: the part after the cache-hit block, reached with
`downloaded_path` still `None`. -/
def procAfterCacheCheck (installReq force : Bool) (existing expected : Option Nat) :
    ProcOutcome :=
  if !installReq && existing.isSome && !force && existingOkB existing expected then
    .useExisting
  else if installReq then
    if existing.isSome && existingOkB existing expected && !force then .useExisting
    else .fetchTemp
  else .fetchDirect

/-- The download-skip decision slice of `process_single_mod`
(lines 1051-1104). -/
def process_download_decision (entry : Option ProcEntry) (latestId : Option Int)
    (installReq force : Bool) (existing expected : Option Nat) : ProcOutcome :=
  if entryMatchesB entry latestId force then
    if installReq && installSkipCondB entry latestId then .installSkip
    else if existingOkB existing expected then .useExisting
    else procAfterCacheCheck installReq force existing expected
  else procAfterCacheCheck installReq force existing expected

/-- Whether the decided outcome leads to a `safe_request` call:
`fetchTemp` downloads into a fresh temp dir (no file there, so
`download_file` requests), `fetchDirect` runs `download_file` with
`allow_existing=True` at the `existing` path, which requests only when
no file is present (line 661 — the witnessing fact is
`download_file true exp resps (some s)` below). -/
def networkFetchOccurs (o : ProcOutcome) (existing : Option Nat) : Bool :=
  match o with
  | .installSkip => false
  | .useExisting => false
  | .fetchTemp => true
  | .fetchDirect => !existing.isSome

/-- Counterexample to C3: cache entry present and matching the resolved
latest id, `force` false — the claim says the skip decision is true and
no network fetch occurs — yet with no file on disk the code proceeds to
`download_mod` and a network fetch occurs. -/
theorem c3_counterexample :
    entryMatchesB (some ⟨some 7, none, false⟩) (some 7) false = true ∧
    process_download_decision (some ⟨some 7, none, false⟩) (some 7) false false
        none (some 10) = .fetchDirect ∧
    networkFetchOccurs
      (process_download_decision (some ⟨some 7, none, false⟩) (some 7) false false
        none (some 10)) none = true := by
  refine ⟨rfl, rfl, rfl⟩

/-- C3 as amended: the skip is decided by the disk, not the cache.  In
non-install mode no network fetch occurs iff a file already exists at
the computed download path (whatever the cache entry, the force flag or
the size).  In install mode no network fetch occurs iff the recorded
install is current (matching entry, `installed_version_id` equal to the
latest id, install path still a directory, force false) or a file of
acceptable size already exists and force is false.  Whenever the
cache-hit conditions of the original claim do hold and the file is also
present with an acceptable size (non-install mode), the existing path is
returned, as the claim's scenario describes.  The reuse behaviour of
`download_file` behind the `fetchDirect` case is the final conjunct. -/
theorem c3_skip_decision_amended :
    (∀ entry latestId ir force existing expected,
      networkFetchOccurs
          (process_download_decision entry latestId ir force existing expected)
          existing = false ↔
        ((ir = false ∧ existing.isSome = true) ∨
         (ir = true ∧
           ((entryMatchesB entry latestId force = true ∧
             installSkipCondB entry latestId = true) ∨
            (force = false ∧ existingOkB existing expected = true))))) ∧
    (∀ entry latestId force existing expected,
      entryMatchesB entry latestId force = true →
      existingOkB existing expected = true →
      process_download_decision entry latestId false force existing expected
        = .useExisting) ∧
    (∀ exp (resps : Nat → DlResp) s,
      download_file true exp resps (some s) = ⟨true, true, true, some s⟩) := by
  refine ⟨?_, ?_, ?_⟩
  · intro entry latestId ir force existing expected
    have hf : entryMatchesB entry latestId true = false := by
      cases entry <;> simp [entryMatchesB]
    have hnone : ∀ exp : Option Nat, existingOkB none exp = false := fun _ => rfl
    cases ir <;> cases force <;>
      cases hm : entryMatchesB entry latestId false <;>
      cases hsk : installSkipCondB entry latestId <;>
      cases hok : existingOkB existing expected <;>
      rcases existing with _ | s <;>
      simp_all [process_download_decision, procAfterCacheCheck, networkFetchOccurs]
  · intro entry latestId force existing expected hm hok
    simp [process_download_decision, hm, hok]
  · intro exp resps s
    unfold download_file runAttempt
    simp

/-- Witness for C3's amended theorem: the iff at a concrete install-mode
state with a current recorded install, the scenario conjunct at a
matching entry with the file on disk, and the reuse fact at a concrete
size. -/
theorem c3_skip_decision_amended_witness :
    (networkFetchOccurs
        (process_download_decision (some ⟨some 7, some 7, true⟩) (some 7) true false
          none (some 10)) none = false ↔
      ((true = false ∧ (none : Option Nat).isSome = true) ∨
       (true = true ∧
         ((entryMatchesB (some ⟨some 7, some 7, true⟩) (some 7) false = true ∧
           installSkipCondB (some ⟨some 7, some 7, true⟩) (some 7) = true) ∨
          (false = false ∧ existingOkB none (some 10) = true))))) ∧
    process_download_decision (some ⟨some 7, none, false⟩) (some 7) false false
        (some 10) (some 10) = .useExisting ∧
    download_file true (some 3) (fun _ => .netError) (some 8)
      = ⟨true, true, true, some 8⟩ := by
  refine ⟨?_, ?_, ?_⟩
  · exact c3_skip_decision_amended.1 (some ⟨some 7, some 7, true⟩) (some 7) true false
      none (some 10)
  · exact c3_skip_decision_amended.2.1 (some ⟨some 7, none, false⟩) (some 7) false
      (some 10) (some 10) (by decide) (by decide)
  · exact c3_skip_decision_amended.2.2 (some 3) (fun _ => .netError) 8

/-! ## Reconciliation cache mutations (C5)

The pipeline mutates the cache at exactly two kinds of sites:
the download record in `process_single_mod` (lines 1125-1136), which
stores a fresh entry dict without `installed_version_id`, and the
install record in `main` (lines 1252-1260 for batch, 1288-1296 for
single), which sets `installed_version_id` to the entry's own
`latest_version_id` via `entry["installed_version_id"] =
entry.get("latest_version_id")`.  A Python dict with optional keys is a
record of `Option` fields (`dict.get` of a missing key is `None`). -/

/-- A cache entry, all CacheEntry fields of the spec as optionals. -/
structure CacheEntry where
  mod_id : Option Int := none
  mod_name : Option String := none
  latest_version_id : Option Int := none
  latest_version_number : Option Int := none
  file_name : Option String := none
  file_size : Option Nat := none
  download_date : Option String := none
  installed_version_id : Option Int := none
  installed_path : Option String := none
deriving DecidableEq

/-- The `mods` map of the cache, keyed by stringified mod id. -/
def Cache := String → Option CacheEntry

/-- The in-memory cache arising from the empty default document. -/
def emptyCache : Cache := fun _ => none

/-- `cache["mods"][k] = e`. -/
def cacheSet (c : Cache) (k : String) (e : CacheEntry) : Cache :=
  fun k2 => if k2 = k then some e else c k2

/-- The values `process_single_mod` writes on download success. -/
structure DownloadFields where
  mod_id : Option Int
  mod_name : Option String
  latest_version_id : Option Int
  latest_version_number : Option Int
  file_name : Option String
  file_size : Option Nat
  download_date : Option String

/-- Lines 1125-1136: on download success the entry for the mod is
replaced by a fresh dict with the seven download fields and no
`installed_version_id` / `installed_path` keys. -/
def recordDownload (c : Cache) (k : String) (f : DownloadFields) : Cache :=
  cacheSet c k
    { mod_id := f.mod_id
      mod_name := f.mod_name
      latest_version_id := f.latest_version_id
      latest_version_number := f.latest_version_number
      file_name := f.file_name
      file_size := f.file_size
      download_date := f.download_date
      installed_version_id := none
      installed_path := none }

/-- Lines 1254-1260 / 1289-1295: on install success the entry (or `\x7b\x7d`
when absent) gets `installed_version_id := entry.get("latest_version_id")`
and `installed_path := target`, then is stored back. -/
def recordInstall (c : Cache) (k : String) (target : String) : Cache :=
  let e := (c k).getD {}
  cacheSet c k
    { e with installed_version_id := e.latest_version_id
             installed_path := some target }

/-- Cache states the pipeline can produce from the empty default by its
two mutation operations. -/
inductive ReachableCache : Cache → Prop where
  | init : ReachableCache emptyCache
  | download (c : Cache) (k : String) (f : DownloadFields) :
      ReachableCache c → ReachableCache (recordDownload c k f)
  | install (c : Cache) (k : String) (t : String) :
      ReachableCache c → ReachableCache (recordInstall c k t)

/-- The C5 invariant: an entry either has no recorded install or records
it against its own `latest_version_id`. -/
def cacheInvariant (c : Cache) : Prop :=
  ∀ k e, c k = some e →
    e.installed_version_id = none ∨ e.installed_version_id = e.latest_version_id

/-- C5: at the moment the install record is written the entry's
`installed_version_id` equals that same entry's `latest_version_id`; and
every cache state the pipeline can reach from the empty cache satisfies
the invariant that a recorded install is never against a version other
than the entry's `latest_version_id`. -/
theorem c5_installed_matches_latest :
    (∀ c k t e, recordInstall c k t k = some e →
      e.installed_version_id = e.latest_version_id) ∧
    (∀ c, ReachableCache c → cacheInvariant c) := by
  constructor
  · intro c k t e h
    simp only [recordInstall, cacheSet, if_pos rfl] at h
    injection h with h2
    rw [← h2]
  · intro c hreach
    induction hreach with
    | init => intro k e h; exact absurd h (by simp [emptyCache])
    | download c0 k f _ ih =>
      intro k2 e h
      by_cases hk : k2 = k
      · subst hk
        simp only [recordDownload, cacheSet, if_pos rfl] at h
        injection h with h2
        rw [← h2]
        exact Or.inl rfl
      · simp only [recordDownload, cacheSet, if_neg hk] at h
        exact ih k2 e h
    | install c0 k t _ ih =>
      intro k2 e h
      by_cases hk : k2 = k
      · subst hk
        simp only [recordInstall, cacheSet, if_pos rfl] at h
        injection h with h2
        rw [← h2]
        exact Or.inr rfl
      · simp only [recordInstall, cacheSet, if_neg hk] at h
        exact ih k2 e h

/-- Witness for C5: the invariant evaluated on the concrete state after
one download record and one install record, both hypotheses discharged
with the reachability constructors and `rfl`. -/
theorem c5_installed_matches_latest_witness :
    cacheInvariant
      (recordInstall
        (recordDownload emptyCache (("7"))
          ⟨some 7, some (("m")), some 42, some 3, some (("f.zip")), some 10,
            some (("d"))⟩)
        (("7")) (("p"))) ∧
    CacheEntry.installed_version_id
        ⟨none, none, none, none, none, none, none, none, some (("q"))⟩
      = CacheEntry.latest_version_id
        ⟨none, none, none, none, none, none, none, none, some (("q"))⟩ := by
  constructor
  · exact c5_installed_matches_latest.2 _
      (ReachableCache.install _ _ _
        (ReachableCache.download _ _ _ ReachableCache.init))
  · exact c5_installed_matches_latest.1 emptyCache (("9")) (("q"))
      ⟨none, none, none, none, none, none, none, none, some (("q"))⟩ (by rfl)

/-! ## Install reconciler (`install_mod`, `extract_mod`; C6, C7)

A directory is an association list of names to nodes.  `install_mod`
(lines 952-989) is modelled over: the guard inputs (`zip_path` is a
file, `target_path` a directory), the archive's base name and top-level
entries (what `extractall` produces and `os.listdir` enumerates), two
flags for `zipfile.is_zipfile` and for whether `extractall` succeeds,
the fresh temp-dir name `mkdtemp` returns, and the state: the target
directory tree plus the list of temp directories currently on disk.

Copy semantics mirror `shutil`: `copy2` overwrites a file and raises on
a directory; `copytree(dirs_exist_ok=True)` merges into an existing
directory, raises on an existing file (its `os.makedirs` fails first,
before copying anything), and on a per-child error keeps copying the
other children and raises a combined error at the end.  The top-level
`for` loop of `install_mod` stops at the first raising entry; earlier
entries stay copied (partial copies are not rolled back).

`extract_mod` (lines 770-789) creates the temp dir with `mkdtemp` and
then runs `extractall` inside the same `try`: if `extractall` raises it
returns `None` without removing the just-created directory, and
`install_mod`'s `finally` skips `rmtree` because `extracted_path` is
falsy — this is the C7 leak. -/

/-- A file (carrying only its size) or directory tree node. -/
inductive FsNode where
  | file (sz : Nat)
  | dir (children : List (String × FsNode))

/-- A directory: an association list of names to nodes. -/
def Dir := List (String × FsNode)

/-- Name lookup in a directory. -/
def lookupD (n : String) (d : Dir) : Option FsNode :=
  match d with
  | [] => none
  | (m, v) :: rest => if m = n then some v else lookupD n rest

/-- Create-or-replace a name in a directory. -/
def setEntry (n : String) (v : FsNode) (d : Dir) : Dir :=
  match d with
  | [] => [(n, v)]
  | (m, w) :: rest => if m = n then (n, v) :: rest else (m, w) :: setEntry n v rest

mutual

/-- Copy a source node onto a destination slot, `shutil` style: returns
whether the copy raised and the resulting slot value (unchanged when the
very operation raises before writing). -/
def copyNode : FsNode → Option FsNode → Bool × FsNode
  | .file s, none => (true, .file s)
  | .file s, some (.file _) => (true, .file s)
  | .file _, some (.dir d) => (false, .dir d)
  | .dir ch, none => (true, .dir ch)
  | .dir _, some (.file s) => (false, .file s)
  | .dir ch, some (.dir d) =>
    let r := mergeChildren ch d
    (r.1, .dir r.2)

/-- `copytree(dirs_exist_ok=True)` body: copy every child, collecting
failures, and report overall success only if all children copied. -/
def mergeChildren : List (String × FsNode) → Dir → Bool × Dir
  | [], d => (true, d)
  | (n, x) :: rest, d =>
    let r1 := copyNode x (lookupD n d)
    let r2 := mergeChildren rest (setEntry n r1.2 d)
    (r1.1 && r2.1, r2.2)

end

/-- The `for name in os.listdir(extracted_path)` loop of `install_mod`
(lines 974-980): copy each top-level entry into the target, stopping at
the first raising entry (earlier copies stay). -/
def installCopyTop : List (String × FsNode) → Dir → Bool × Dir
  | [], d => (true, d)
  | (n, x) :: rest, d =>
    let r := copyNode x (lookupD n d)
    let d1 := setEntry n r.2 d
    if r.1 then installCopyTop rest d1 else (false, d1)

/-- State touched by `install_mod`: the target tree and the temp
extraction directories currently existing on disk. -/
structure InstSt where
  target : Dir
  tempLive : List String

/-- Result of `install_mod`: the returned boolean, whether the
extraction stage was entered (`extract_mod` called past the guard), and
the final state. -/
structure InstallRes where
  ok : Bool
  ranExtraction : Bool
  state : InstSt

/-- Embedding of `install_mod` (lines 952-989) with `extract_mod`
(lines 770-789) inlined at its only call site.  The guard (line 966) is
a no-op success when a non-empty directory named after the archive's
base name exists in the target and `force` is unset.  When
`extractall` fails (`extractOk = false`) the freshly created temp dir
`fresh` stays on disk: `extract_mod` returns `None` and the `finally`
of `install_mod` sees a falsy `extracted_path`. -/
def install_mod (zipIsFile : Bool) (baseName : String)
    (entries : List (String × FsNode)) (targetIsDir : Bool) (force : Bool)
    (isZip : Bool) (extractOk : Bool) (fresh : String) (st : InstSt) : InstallRes :=
  if !zipIsFile then ⟨false, false, st⟩
  else if !targetIsDir then ⟨false, false, st⟩
  else
    let guardHit :=
      match lookupD baseName st.target with
      | some (.dir ch) => !ch.isEmpty && !force
      | _ => false
    if guardHit then ⟨true, false, st⟩
    else if !isZip then ⟨false, true, st⟩
    else if !extractOk then ⟨false, true, ⟨st.target, fresh :: st.tempLive⟩⟩
    else
      let res := installCopyTop entries st.target
      ⟨res.1, true, ⟨res.2, (fresh :: st.tempLive).erase fresh⟩⟩

/-- `setEntry` never produces an empty directory. -/
theorem setEntry_ne_nil (n : String) (v : FsNode) (d : Dir) :
    setEntry n v d ≠ [] := by
  cases d with
  | nil => simp [setEntry]
  | cons p rest =>
    obtain ⟨m, w⟩ := p
    by_cases h : m = n <;> simp [setEntry, h]

/-- `mergeChildren` never empties a nonempty directory, and makes the
directory nonempty whenever the source is. -/
theorem mergeChildren_ne_nil (ch : List (String × FsNode)) :
    ∀ d : Dir, (ch ≠ [] ∨ d ≠ []) → (mergeChildren ch d).2 ≠ [] := by
  induction ch with
  | nil =>
    intro d h
    rcases h with h | h
    · exact absurd rfl h
    · simpa [mergeChildren] using h
  | cons p rest ih =>
    intro d _
    obtain ⟨n, x⟩ := p
    simp only [mergeChildren]
    exact ih (setEntry n (copyNode x (lookupD n d)).2 d)
      (Or.inr (setEntry_ne_nil _ _ _))

/-- A successful copy of a nonempty source directory yields a nonempty
destination directory. -/
theorem copyNode_dir_ok (ch : List (String × FsNode)) (slot : Option FsNode) :
    ch ≠ [] → (copyNode (.dir ch) slot).1 = true →
    ∃ ch2, (copyNode (.dir ch) slot).2 = .dir ch2 ∧ ch2 ≠ [] := by
  intro hch hok
  match slot with
  | none => exact ⟨ch, rfl, hch⟩
  | some (.file s) => simp [copyNode] at hok
  | some (.dir d) =>
    refine ⟨(mergeChildren ch d).2, rfl, ?_⟩
    exact mergeChildren_ne_nil ch d (Or.inl hch)

/-- `lookupD` through `setEntry` at a different name. -/
theorem lookupD_setEntry_other (n m : String) (v : FsNode) (d : Dir) :
    m ≠ n → lookupD m (setEntry n v d) = lookupD m d := by
  intro hmn
  induction d with
  | nil => simp [setEntry, lookupD, Ne.symm hmn]
  | cons p rest ih =>
    obtain ⟨a, w⟩ := p
    by_cases ha : a = n
    · subst ha
      simp [setEntry, lookupD, Ne.symm hmn]
    · simp [setEntry, ha, lookupD, ih]

/-- `lookupD` through `setEntry` at the same name. -/
theorem lookupD_setEntry_self (n : String) (v : FsNode) (d : Dir) :
    lookupD n (setEntry n v d) = some v := by
  induction d with
  | nil => simp [setEntry, lookupD]
  | cons p rest ih =>
    obtain ⟨a, w⟩ := p
    by_cases ha : a = n
    · subst ha; simp [setEntry, lookupD]
    · simp [setEntry, ha, lookupD, ih]

/-- A top-level copy that succeeds with a nonempty directory entry named
`base` in the source leaves a nonempty directory named `base` in the
result, provided source names are distinct (as `os.listdir` names are). -/
theorem installCopyTop_keeps_base (ents : List (String × FsNode)) :
    ∀ d : Dir, (ents.map Prod.fst).Nodup →
    ∀ base ch, lookupD base ents = some (.dir ch) → ch ≠ [] →
    (installCopyTop ents d).1 = true →
    ∃ ch2, lookupD base (installCopyTop ents d).2 = some (.dir ch2) ∧ ch2 ≠ [] := by
  induction ents with
  | nil =>
    intro d _ base ch hbase
    simp [lookupD] at hbase
  | cons p rest ih =>
    intro d hnodup base ch hbase hch hok
    obtain ⟨n, x⟩ := p
    simp only [List.map_cons, List.nodup_cons] at hnodup
    obtain ⟨hn, hnodup2⟩ := hnodup
    by_cases hbn : n = base
    · subst hbn
      have hx : x = .dir ch := by
        simp [lookupD] at hbase
        exact hbase
      subst hx
      simp only [installCopyTop] at hok ⊢
      rcases hcopy : (copyNode (.dir ch) (lookupD n d)).1 with _ | _
      · rw [hcopy] at hok
        simp at hok
      · rw [hcopy] at hok
        simp only [if_pos rfl] at hok ⊢
        obtain ⟨ch2, hch2, hch2ne⟩ := copyNode_dir_ok ch (lookupD n d) hch hcopy
        have hbase_pres :
            ∀ (l : List (String × FsNode)) (d2 : Dir), n ∉ l.map Prod.fst →
              lookupD n d2 = some (.dir ch2) →
              (installCopyTop l d2).1 = true →
              lookupD n (installCopyTop l d2).2 = some (.dir ch2) := by
          intro l
          induction l with
          | nil => intro d2 _ hl _; simpa [installCopyTop] using hl
          | cons q qrest ihq =>
            intro d2 hout hl hok2
            obtain ⟨m, y⟩ := q
            simp only [List.map_cons, List.mem_cons] at hout
            push_neg at hout
            obtain ⟨hmn, hout2⟩ := hout
            simp only [installCopyTop] at hok2 ⊢
            rcases hcm : (copyNode y (lookupD m d2)).1 with _ | _
            · rw [hcm] at hok2
              simp at hok2
            · rw [hcm] at hok2
              simp only [if_pos rfl] at hok2 ⊢
              exact ihq _ hout2
                (by rw [lookupD_setEntry_other m n _ d2 hmn]; exact hl)
                hok2
        refine ⟨ch2, ?_, hch2ne⟩
        exact hbase_pres rest (setEntry n (copyNode (.dir ch) (lookupD n d)).2 d) hn
          (by rw [lookupD_setEntry_self, hch2]) hok
    · have hbase2 : lookupD base rest = some (.dir ch) := by
        simpa [lookupD, hbn] using hbase
      simp only [installCopyTop] at hok ⊢
      rcases hcm : (copyNode x (lookupD n d)).1 with _ | _
      · rw [hcm] at hok
        simp at hok
      · rw [hcm] at hok
        simp only [if_pos rfl] at hok ⊢
        exact ih _ hnodup2 base ch hbase2 hch hok

/-- Counterexample to C6: an archive whose only top-level entry is a
plain file (no directory named after the archive).  Both the first and
the second call run the extraction stage — the guard never becomes true
because the install never creates a `baseName` directory — so
extraction work is performed twice, and C6's universal idempotence
fails. -/
theorem c6_counterexample :
    (install_mod true (("foo")) [(("readme"), .file 1)] true false true true
        (("t1")) ⟨[], []⟩).ok = true ∧
    (install_mod true (("foo")) [(("readme"), .file 1)] true false true true
        (("t1")) ⟨[], []⟩).ranExtraction = true ∧
    (install_mod true (("foo")) [(("readme"), .file 1)] true false true true
        (("t2"))
        (install_mod true (("foo")) [(("readme"), .file 1)] true false true true
          (("t1")) ⟨[], []⟩).state).ranExtraction = true := by
  refine ⟨rfl, rfl, rfl⟩

/-- C6 as amended: the guard behaviour is as claimed (a non-empty
`baseName` directory in the target with `force` unset makes the call a
no-op success without extraction), and the two-call idempotence holds
for archives that contain a non-empty top-level directory named after
the archive's base name (with distinct top-level names): after a first
successful call, the second call is a no-op success with no extraction
work and an unchanged state. -/
theorem c6_install_idempotent_amended :
    (∀ baseName entries ch tgt temps zf ef fresh,
      lookupD baseName tgt = some (.dir ch) → ch ≠ [] →
      install_mod true baseName entries true false zf ef fresh ⟨tgt, temps⟩
        = ⟨true, false, ⟨tgt, temps⟩⟩) ∧
    (∀ baseName entries ch tgt temps f1 f2,
      (entries.map Prod.fst).Nodup →
      lookupD baseName entries = some (.dir ch) → ch ≠ [] →
      (install_mod true baseName entries true false true true f1 ⟨tgt, temps⟩).ok
        = true →
      install_mod true baseName entries true false true true f2
          (install_mod true baseName entries true false true true f1
            ⟨tgt, temps⟩).state
        = ⟨true, false,
            (install_mod true baseName entries true false true true f1
              ⟨tgt, temps⟩).state⟩) := by
  constructor
  · intro baseName entries ch tgt temps zf ef fresh hbase hch
    simp [install_mod, hbase, hch]
  · intro baseName entries ch tgt temps f1 f2 hnodup hbase hch hok
    by_cases hguard :
        (match lookupD baseName tgt with
          | some (.dir ch0) => !ch0.isEmpty && !false
          | _ => false) = true
    · have h1 : install_mod true baseName entries true false true true f1 ⟨tgt, temps⟩
          = ⟨true, false, ⟨tgt, temps⟩⟩ := by
        simp only [install_mod, Bool.not_true, Bool.false_eq_true, if_false]
        rw [if_pos hguard]
      rw [h1]
      simp only [install_mod, Bool.not_true, Bool.false_eq_true, if_false]
      rw [if_pos hguard]
    · have h1 : install_mod true baseName entries true false true true f1 ⟨tgt, temps⟩
          = ⟨(installCopyTop entries tgt).1, true,
              ⟨(installCopyTop entries tgt).2, (f1 :: temps).erase f1⟩⟩ := by
        simp only [install_mod, Bool.not_true, Bool.false_eq_true, if_false]
        rw [if_neg (by simpa using hguard)]
      rw [h1] at hok ⊢
      simp only at hok
      obtain ⟨ch2, hch2, hch2ne⟩ :=
        installCopyTop_keeps_base entries tgt hnodup baseName ch hbase hch hok
      simp only [install_mod, Bool.not_true, Bool.false_eq_true, if_false]
      rw [if_pos (by simp [hch2, hch2ne])]

/-- Witness for C6's amended theorem: a concrete archive `pack.zip`
containing a top-level `pack` directory; the second call is a no-op with
no extraction. -/
theorem c6_install_idempotent_amended_witness :
    install_mod true (("pack")) [(("pack"), .dir [(("a"), .file 3)])] true false
        true true (("x2"))
        (install_mod true (("pack")) [(("pack"), .dir [(("a"), .file 3)])] true
          false true true (("x1")) ⟨[], []⟩).state
      = ⟨true, false,
          (install_mod true (("pack")) [(("pack"), .dir [(("a"), .file 3)])] true
            false true true (("x1")) ⟨[], []⟩).state⟩ := by
  exact c6_install_idempotent_amended.2 (("pack"))
    [(("pack"), .dir [(("a"), .file 3)])] [(("a"), .file 3)] [] [] (("x1")) (("x2"))
    (by simp) (by rfl) (by simp) (by rfl)

/-- Counterexample to C7: when `extractall` raises after `mkdtemp`
created the scoped temp directory, `extract_mod` returns `None` and
`install_mod`'s `finally` does not remove it — the temp directory
remains on disk at exit, so it is not removed on every exit path. -/
theorem c7_counterexample :
    (install_mod true (("a")) [] true false true false (("tmp1"))
        ⟨[], []⟩).state.tempLive = [(("tmp1"))] ∧
    (install_mod true (("a")) [] true false true false (("tmp1"))
        ⟨[], []⟩).ok = false := by
  exact ⟨rfl, rfl⟩

/-- C7 as amended: on every exit path on which `extractall` itself
succeeds — install success, merge/copy failure, and also the paths that
never create the temp directory (guards, guard hit, non-ZIP input) — the
scoped temp directory is gone: the set of live temp directories is
unchanged by the call.  Only an `extractall` failure (the
counterexample) leaks it. -/
theorem c7_temp_cleanup_amended :
    ∀ zipIsFile baseName entries targetIsDir force isZip fresh st,
      fresh ∉ st.tempLive →
      (install_mod zipIsFile baseName entries targetIsDir force isZip true fresh
          st).state.tempLive = st.tempLive := by
  intro zipIsFile baseName entries targetIsDir force isZip fresh st hfresh
  cases zipIsFile with
  | false => rfl
  | true =>
    cases targetIsDir with
    | false => rfl
    | true =>
      simp only [install_mod, Bool.not_true, Bool.false_eq_true, if_false]
      by_cases hguard :
          (match lookupD baseName st.target with
            | some (.dir ch) => !ch.isEmpty && !force
            | _ => false) = true
      · rw [if_pos hguard]
      · rw [if_neg (by simpa using hguard)]
        cases isZip with
        | false => rfl
        | true =>
          simp only [Bool.not_true, Bool.false_eq_true, if_false]
          exact List.erase_cons_head fresh st.tempLive ▸
            congrArg (fun l => l) (by simp [List.erase_cons_head, hfresh])

/-- Witness for C7's amended theorem: a concrete successful install
leaves the live temp directories unchanged. -/
theorem c7_temp_cleanup_amended_witness :
    (install_mod true (("b")) [(("data"), .file 2)] true false true true
        (("tmp9")) ⟨[], [(("other"))]⟩).state.tempLive = [(("other"))] := by
  exact c7_temp_cleanup_amended true (("b")) [(("data"), .file 2)] true false true
    (("tmp9")) ⟨[], [(("other"))]⟩ (by simp)

end ModioDirect
